import Mathlib

/-!
Shallow embedding of fio verify.c: the data-integrity verification layer of
the fio storage exerciser.  The file embeds, from src/verify.c:
fill_random_bytes, the per-algorithm verifiers verify_io_u_crc7 / crc16 /
crc32 / crc64 / md5, the dispatcher verify_io_u, the seal path
populate_verify_io_u (with its fill_crc7 .. fill_md5 helpers), and the
history consumer get_next_verify.  Logging (log_err, log_info, hexdump) has
no effect on results and is not modelled.  The checksum primitives
(crc7 .. crc64, md5) and os_random_long are external collaborators of this
repository (declared in fio.h, implemented elsewhere); the spec treats them
as pure functions, and they are modelled here as an arbitrary record of
pure functions over which every theorem quantifies.
-/

/-- Modelled from the spec: FIO_HDR_MAGIC is declared in fio.h, which is
not under src/; the spec only calls it a constant sentinel value, so any
fixed constant is faithful.  Claims depend only on equality with it. -/
def FIO_HDR_MAGIC : Nat := 0x51271059

/-- The POSIX EIO error code returned by verify_io_u on failure. -/
def EIO_code : Nat := 5

/-- Modelled from the spec: the verify-type enum lives in fio.h, not under
src/.  Claims depend only on the tags being distinct small integers, with
VERIFY_NULL the disabled value. -/
def VERIFY_NULL : Nat := 0

/-- Verify-type tag for MD5 (see fio.h note on VERIFY_NULL). -/
def VERIFY_MD5 : Nat := 1

/-- Verify-type tag for CRC64. -/
def VERIFY_CRC64 : Nat := 2

/-- Verify-type tag for CRC32. -/
def VERIFY_CRC32 : Nat := 3

/-- Verify-type tag for CRC16. -/
def VERIFY_CRC16 : Nat := 4

/-- Verify-type tag for CRC7. -/
def VERIFY_CRC7 : Nat := 5

/-- Modelled from the spec: sizeof(struct verify_header).  The struct is
declared in fio.h, not under src/; the spec (section 6) gives the layout as
4 bytes magic, 4-or-8 bytes length, an algorithm tag and a fixed 16-byte
digest field, so with padding the natural size is 32.  No claim depends on
the exact value. -/
def hdrSize : Nat := 32

/-- Unsigned 32-bit subtraction, as performed on the unsigned int
expressions hdr->len - sizeof(*hdr) and io_u->buflen - sizeof(header). -/
def usub32 (a b : Nat) : Nat := (a % 2 ^ 32 + (2 ^ 32 - b % 2 ^ 32)) % 2 ^ 32

/-- Little-endian read of the leading w bytes of a byte field d. -/
def le_read (d : Nat → Nat) (w : Nat) : Nat :=
  ((List.range w).map fun i => d i * 256 ^ i).sum

/-- Little-endian store of the w-byte value v into the leading bytes of d,
leaving the remaining bytes untouched. -/
def store_le (d : Nat → Nat) (v w : Nat) : Nat → Nat :=
  fun i => if i < w then v / 256 ^ i % 256 else d i

/-- The 16 bytes of an md5 hash value. -/
def md5_bytes (l : List Nat) : List Nat :=
  (List.range 16).map fun i => l.getD i 0 % 256

/-- Store of the 16 md5 hash bytes into the leading bytes of d. -/
def store_md5 (d : Nat → Nat) (l : List Nat) : Nat → Nat :=
  fun i => if i < 16 then l.getD i 0 % 256 else d i

/-- struct verify_header from fio.h.  In C the digest members (crc7, crc16,
crc32, crc64, md5_digest) share one union: per the spec each algorithm
occupies a leading subrange of a single 16-byte field and leaves the rest
untouched.  digest i is the byte at offset i of that field (below 256 in
any state describing real memory); the member widths are 1, 2, 4, 8 and 16
bytes (spec section 4.1), stored little-endian as on the program's
platform. -/
structure VerifyHeader where
  fio_magic : Nat
  len : Nat
  verify_type : Nat
  digest : Nat → Nat

/-- A fio file: its identity plus the FIO_FILE_OPEN bit of f->flags. -/
structure FioFile where
  fid : Nat
  flagOpen : Bool
deriving DecidableEq

/-- I/O direction (ddir). -/
inductive DDir where
  | READ
  | WRITE
deriving DecidableEq

/-- struct io_u: the buffer is split into its verify_header prefix
(buf_hdr) and the byte at each offset past the header (buf_body). -/
structure IoU where
  buf_hdr : VerifyHeader
  buf_body : Nat → Nat
  buflen : Nat
  offset : Nat
  ddir : DDir
  file : Option FioFile
  xfer_buflen : Nat
  xfer_buf_set : Bool

/-- struct io_piece: a pending write descriptor in the history. -/
structure Ipo where
  offset : Nat
  len : Nat
  file : FioFile
deriving DecidableEq

/-- The slice of struct thread_data that verify.c reads and writes:
o.verify, verify_state, and the two history containers.  io_hist_tree is
the in-order (offset-sorted) listing of the red-black tree, so its head is
the node rb_first returns. -/
structure ThreadData where
  verify : Nat
  verify_state : Nat
  io_hist_tree : List Ipo
  io_hist_list : List Ipo
deriving DecidableEq

/-- Modelled from the spec: the checksum primitives crc7 .. crc64 and md5,
and the RNG os_random_long, are external collaborators ("treated as pure
functions checksum(bytes) -> digest", spec section 1).  rand maps a
verify_state to the drawn value and the successor state. -/
structure Prims where
  crc7 : List Nat → Nat
  crc16 : List Nat → Nat
  crc32 : List Nat → Nat
  crc64 : List Nat → Nat
  md5 : List Nat → List Nat
  rand : Nat → Nat × Nat

/-- fill_random_bytes: draw ints from os_random_long and memcpy up to 4
bytes of each (the low bytes, in memory order) until len bytes are
produced.  Returns the bytes written and the final verify_state. -/
def fill_random_bytes (rand : Nat → Nat × Nat) (st : Nat) (len : Nat) :
    List Nat × Nat :=
  if _h : len = 0 then ([], st)
  else
    let r := (rand st).1
    let todo := min 4 len
    let chunk := (List.range todo).map fun i => r / 256 ^ i % 256
    let rest := fill_random_bytes rand (rand st).2 (len - todo)
    (chunk ++ rest.1, rest.2)
termination_by len
decreasing_by
  have h1 : 1 ≤ min 4 len := by omega
  omega

/-- The byte region a verifier checksums: hdr->len - sizeof(*hdr) bytes
starting right after the header. -/
def hdr_region (hdr : VerifyHeader) (io_u : IoU) : List Nat :=
  (List.range (usub32 hdr.len hdrSize)).map io_u.buf_body

/-- verify_io_u_crc7: the one-byte value c against the leading byte of the
digest union. -/
def verify_io_u_crc7 (p : Prims) (hdr : VerifyHeader) (io_u : IoU) : Nat :=
  let c := p.crc7 (hdr_region hdr io_u) % 256 ^ 1
  if c ≠ le_read hdr.digest 1 then 1 else 0

/-- verify_io_u_crc16: the two-byte value c against the leading two bytes
of the digest union. -/
def verify_io_u_crc16 (p : Prims) (hdr : VerifyHeader) (io_u : IoU) : Nat :=
  let c := p.crc16 (hdr_region hdr io_u) % 256 ^ 2
  if c ≠ le_read hdr.digest 2 then 1 else 0

/-- verify_io_u_crc32: the CRC32 digest occupies 4 bytes (spec section
4.1); the crc32 value fits them. -/
def verify_io_u_crc32 (p : Prims) (hdr : VerifyHeader) (io_u : IoU) : Nat :=
  let c := p.crc32 (hdr_region hdr io_u) % 256 ^ 4
  if c ≠ le_read hdr.digest 4 then 1 else 0

/-- verify_io_u_crc64: the eight-byte value c against the leading eight
bytes of the digest union. -/
def verify_io_u_crc64 (p : Prims) (hdr : VerifyHeader) (io_u : IoU) : Nat :=
  let c := p.crc64 (hdr_region hdr io_u) % 256 ^ 8
  if c ≠ le_read hdr.digest 8 then 1 else 0

/-- verify_io_u_md5: memcmp of the 16 stored digest bytes against the
recomputed hash bytes. -/
def verify_io_u_md5 (p : Prims) (hdr : VerifyHeader) (io_u : IoU) : Nat :=
  if (List.range 16).map hdr.digest ≠
      md5_bytes (p.md5 (hdr_region hdr io_u)) then 1 else 0

/-- verify_io_u: skip when verification is disabled or the direction is not
read; check the magic; dispatch on the verify type stored in the header;
map any per-algorithm failure (or unknown type) to EIO. -/
def verify_io_u (p : Prims) (td : ThreadData) (io_u : IoU) : Nat :=
  let hdr := io_u.buf_hdr
  if td.verify = VERIFY_NULL ∨ io_u.ddir ≠ DDir.READ then 0
  else if hdr.fio_magic ≠ FIO_HDR_MAGIC then EIO_code
  else
    let ret :=
      if hdr.verify_type = VERIFY_MD5 then verify_io_u_md5 p hdr io_u
      else if hdr.verify_type = VERIFY_CRC64 then verify_io_u_crc64 p hdr io_u
      else if hdr.verify_type = VERIFY_CRC32 then verify_io_u_crc32 p hdr io_u
      else if hdr.verify_type = VERIFY_CRC16 then verify_io_u_crc16 p hdr io_u
      else if hdr.verify_type = VERIFY_CRC7 then verify_io_u_crc7 p hdr io_u
      else 1
    if ret ≠ 0 then EIO_code else 0

/-- The seal path on the fields it actually reads: the configured verify
type, the RNG state, the buffer length, and the buffer contents.  Returns
none when the switch falls through to assert(0), otherwise the new
verify_state and the new buffer contents.  Digest-union bytes past the
width of the configured algorithm are not written and keep their previous
values. -/
def populate_core (p : Prims) (verify vstate buflen : Nat)
    (hdr : VerifyHeader) (body : Nat → Nat) :
    Option (Nat × VerifyHeader × (Nat → Nat)) :=
  let len := usub32 buflen hdrSize
  if verify = VERIFY_NULL then some (vstate, hdr, body)
  else
    let fr := fill_random_bytes p.rand vstate len
    let body2 := fun i => if i < len then fr.1.getD i 0 else body i
    let wr := (List.range len).map body2
    let hdr2 := { hdr with fio_magic := FIO_HDR_MAGIC, len := buflen % 2 ^ 32,
                           verify_type := verify }
    if verify = VERIFY_MD5 then
      some (fr.2, { hdr2 with digest := store_md5 hdr2.digest (p.md5 wr) },
        body2)
    else if verify = VERIFY_CRC64 then
      some (fr.2, { hdr2 with digest := store_le hdr2.digest (p.crc64 wr) 8 },
        body2)
    else if verify = VERIFY_CRC32 then
      some (fr.2, { hdr2 with digest := store_le hdr2.digest (p.crc32 wr) 4 },
        body2)
    else if verify = VERIFY_CRC16 then
      some (fr.2, { hdr2 with digest := store_le hdr2.digest (p.crc16 wr) 2 },
        body2)
    else if verify = VERIFY_CRC7 then
      some (fr.2, { hdr2 with digest := store_le hdr2.digest (p.crc7 wr) 1 },
        body2)
    else none

/-- populate_verify_io_u: write the header (magic, len, type), fill the
body with random bytes, and store the digest of the filled region; none
models the assert(0) on an unknown configured verify type. -/
def populate_verify_io_u (p : Prims) (td : ThreadData) (io_u : IoU) :
    Option (ThreadData × IoU) :=
  match populate_core p td.verify td.verify_state io_u.buflen io_u.buf_hdr
      io_u.buf_body with
  | none => none
  | some (st2, hdr2, body2) =>
      some ({ td with verify_state := st2 },
            { io_u with buf_hdr := hdr2, buf_body := body2 })

/-- The tail of get_next_verify once an io_piece has been unlinked from the
history: bind offset, length and file onto the io_u; if the file is not
open, try to open it (openOk tells whether td_io_open_file succeeds for a
given file id) and fail with 1 on refusal; otherwise mark the unit as a
read and hand it back with 0. -/
def gnv_deliver (openOk : Nat → Bool) (td : ThreadData) (io_u : IoU)
    (ipo : Ipo) : Nat × ThreadData × IoU :=
  let io1 := { io_u with offset := ipo.offset, buflen := ipo.len,
                         file := some ipo.file }
  if ipo.file.flagOpen = false ∧ openOk ipo.file.fid = false then
    (1, td, io1)
  else
    let f := if ipo.file.flagOpen then ipo.file
             else { ipo.file with flagOpen := true }
    (0, td, { io1 with file := some f, ddir := DDir.READ,
                       xfer_buf_set := true, xfer_buflen := ipo.len })

/-- get_next_verify: a requeued unit (io_u->file already set) passes
through untouched; otherwise take the minimum node of the tree if any, else
the head of the list if any, else report 1 (nothing pending). -/
def get_next_verify (openOk : Nat → Bool) (td : ThreadData) (io_u : IoU) :
    Nat × ThreadData × IoU :=
  match io_u.file with
  | some _ => (0, td, io_u)
  | none =>
      match td.io_hist_tree, td.io_hist_list with
      | ipo :: rest, _ =>
          gnv_deliver openOk { td with io_hist_tree := rest } io_u ipo
      | [], ipo :: rest =>
          gnv_deliver openOk { td with io_hist_list := rest } io_u ipo
      | [], [] => (1, td, io_u)

/-! Concrete instances used by witnesses and counterexamples. -/

/-- A concrete record of checksum primitives. -/
def primsW : Prims where
  crc7 := fun l => l.foldl (fun a b => a + b) 7
  crc16 := fun l => l.foldl (fun a b => a + 2 * b) 16
  crc32 := fun l => l.foldl (fun a b => a + 3 * b) 32
  crc64 := fun l => l.foldl (fun a b => a + 5 * b) 64
  md5 := fun l => [l.length % 256] ++ l.take 15
  rand := fun s => (s * 13 + 7, s + 1)

/-- A concrete header carrying the magic and a CRC32 tag. -/
def hdrW : VerifyHeader :=
  { fio_magic := FIO_HDR_MAGIC, len := 40, verify_type := VERIFY_CRC32,
    digest := fun _ => 0 }

/-- A concrete open file. -/
def fileW : FioFile := { fid := 3, flagOpen := true }

/-- A concrete io_u with no pinned file, direction read. -/
def iouW : IoU :=
  { buf_hdr := hdrW, buf_body := fun i => i % 256, buflen := 40, offset := 0,
    ddir := DDir.READ, file := none, xfer_buflen := 0, xfer_buf_set := false }

/-- A concrete thread state with empty history. -/
def tdW : ThreadData :=
  { verify := VERIFY_CRC32, verify_state := 42, io_hist_tree := [],
    io_hist_list := [] }

/-- C5: with verification disabled (VERIFY_NULL) or a direction other than
read, verify_io_u returns 0 whatever the buffer holds; the quantification
over the primitives p and the whole io_u states that no header field and no
checksum result can influence the outcome. -/
theorem C5_skip_when_disabled_or_not_read (p : Prims) (td : ThreadData)
    (io_u : IoU) (h : td.verify = VERIFY_NULL ∨ io_u.ddir ≠ DDir.READ) :
    verify_io_u p td io_u = 0 := by
  unfold verify_io_u
  rw [if_pos h]

/-- Witness for C5 at a concrete disabled configuration. -/
theorem C5_skip_witness :
    verify_io_u primsW { tdW with verify := VERIFY_NULL } iouW = 0 :=
  C5_skip_when_disabled_or_not_read primsW { tdW with verify := VERIFY_NULL }
    iouW (Or.inl rfl)

/-- C8: a requeued io_u (one already carrying a file) passes straight
through get_next_verify with 0: the history and every io_u field are left
untouched, and no open-state check happens (openOk is arbitrary). -/
theorem C8_requeued_passthrough (openOk : Nat → Bool) (td : ThreadData)
    (io_u : IoU) (f : FioFile) (h : io_u.file = some f) :
    get_next_verify openOk td io_u = (0, td, io_u) := by
  unfold get_next_verify
  rw [h]

/-- Witness for C8 on a concrete requeued unit. -/
theorem C8_requeued_witness :
    get_next_verify (fun _ => false) tdW { iouW with file := some fileW } =
      (0, tdW, { iouW with file := some fileW }) :=
  C8_requeued_passthrough (fun _ => false) tdW
    { iouW with file := some fileW } fileW rfl

/-- Iterated get_next_verify, collecting the returned codes and threading
the thread state and the io_u. -/
def nextRepeat (openOk : Nat → Bool) (td : ThreadData) (io_u : IoU) :
    Nat → List Nat × ThreadData × IoU
  | 0 => ([], td, io_u)
  | n + 1 =>
      let r := get_next_verify openOk td io_u
      let rest := nextRepeat openOk r.2.1 r.2.2 n
      (r.1 :: rest.1, rest.2)

/-- C7: with both history containers empty and no pinned file, any number
of get_next_verify calls returns 1 every time and leaves the thread state
and the io_u unchanged. -/
theorem C7_empty_idempotent (openOk : Nat → Bool) (td : ThreadData)
    (io_u : IoU) (n : Nat) (ht : td.io_hist_tree = [])
    (hl : td.io_hist_list = []) (hf : io_u.file = none) :
    nextRepeat openOk td io_u n = (List.replicate n 1, td, io_u) := by
  have hstep : get_next_verify openOk td io_u = (1, td, io_u) := by
    unfold get_next_verify
    rw [hf, ht, hl]
  induction n with
  | zero => simp [nextRepeat]
  | succ n ih => simp [nextRepeat, hstep, ih, List.replicate_succ]

/-- Witness for C7 at three calls on an empty tracker. -/
theorem C7_empty_witness :
    nextRepeat (fun _ => true) tdW iouW 3 =
      (List.replicate 3 1, tdW, iouW) :=
  C7_empty_idempotent (fun _ => true) tdW iouW 3 rfl rfl rfl

/-- C3: with verification enabled and direction read, a magic mismatch
makes verify_io_u return EIO at once; the quantification over p and over
every header field other than the magic states that no checksum runs and no
other field is read on this path. -/
theorem C3_bad_magic_eio (p : Prims) (td : ThreadData) (io_u : IoU)
    (hv : td.verify ≠ VERIFY_NULL) (hd : io_u.ddir = DDir.READ)
    (hm : io_u.buf_hdr.fio_magic ≠ FIO_HDR_MAGIC) :
    verify_io_u p td io_u = EIO_code := by
  unfold verify_io_u
  rw [if_neg (by simp [hv, hd]), if_pos hm]

/-- Witness for C3 on a concrete zero-magic buffer. -/
theorem C3_bad_magic_witness :
    verify_io_u primsW tdW
      { iouW with buf_hdr := { hdrW with fio_magic := 0 } } = EIO_code :=
  C3_bad_magic_eio primsW tdW
    { iouW with buf_hdr := { hdrW with fio_magic := 0 } }
    (by decide) rfl (by decide)

/-- C6: a configured verify type outside the supported set (and other than
VERIFY_NULL, which returns early) falls into the assert(0) branch of
populate_verify_io_u, modelled as none; on the supported set the branch is
unreachable and sealing produces a result. -/
theorem C6_unknown_type_asserts (p : Prims) (td : ThreadData) (io_u : IoU) :
    (td.verify ∉ [VERIFY_NULL, VERIFY_MD5, VERIFY_CRC64, VERIFY_CRC32,
        VERIFY_CRC16, VERIFY_CRC7] → populate_verify_io_u p td io_u = none) ∧
    (td.verify ∈ [VERIFY_NULL, VERIFY_MD5, VERIFY_CRC64, VERIFY_CRC32,
        VERIFY_CRC16, VERIFY_CRC7] →
      (populate_verify_io_u p td io_u).isSome) := by
  constructor
  · intro h
    simp only [List.mem_cons, List.not_mem_nil, or_false, not_or] at h
    obtain ⟨h0, h1, h2, h3, h4, h5⟩ := h
    simp [populate_verify_io_u, populate_core, h0, h1, h2, h3, h4, h5]
  · intro h
    simp only [List.mem_cons, List.not_mem_nil, or_false] at h
    rcases h with h | h | h | h | h | h <;>
      simp [populate_verify_io_u, populate_core, h, VERIFY_NULL, VERIFY_MD5,
        VERIFY_CRC64, VERIFY_CRC32, VERIFY_CRC16, VERIFY_CRC7]

/-- Witness for C6: verify type 9 asserts, the configured CRC32 does not. -/
theorem C6_unknown_type_witness :
    populate_verify_io_u primsW { tdW with verify := 9 } iouW = none ∧
    (populate_verify_io_u primsW tdW iouW).isSome :=
  ⟨(C6_unknown_type_asserts primsW { tdW with verify := 9 } iouW).1
     (by decide),
   (C6_unknown_type_asserts primsW tdW iouW).2 (by decide)⟩

/-- C10: the checksummed region is delimited by the header alone.  The
verdict of verify_io_u is unchanged when io_u->buflen (and offset, and the
body beyond hdr->len - sizeof(header) bytes) vary, and the region has
exactly hdr->len - sizeof(header) bytes. -/
theorem C10_region_from_header_only (p : Prims) (td : ThreadData)
    (u v : IoU) (hh : u.buf_hdr = v.buf_hdr) (hd : u.ddir = v.ddir)
    (hb : ∀ i, i < usub32 u.buf_hdr.len hdrSize →
      u.buf_body i = v.buf_body i) :
    verify_io_u p td u = verify_io_u p td v ∧
    (hdr_region u.buf_hdr u).length = usub32 u.buf_hdr.len hdrSize := by
  have hr : hdr_region v.buf_hdr u = hdr_region v.buf_hdr v := by
    unfold hdr_region
    refine List.map_congr_left ?_
    intro i hi
    rw [List.mem_range] at hi
    refine hb i ?_
    rw [hh]
    exact hi
  constructor
  · simp only [verify_io_u, verify_io_u_md5, verify_io_u_crc64,
      verify_io_u_crc32, verify_io_u_crc16, verify_io_u_crc7, hh, hd, hr]
  · simp [hdr_region]

/-- Witness for C10: two buffers sharing the header and the 8-byte region
but with different buflen and different bytes past the region verify the
same way. -/
theorem C10_region_witness :
    verify_io_u primsW tdW iouW =
      verify_io_u primsW tdW
        { iouW with buflen := 4096,
                    buf_body := fun i => if i < 8 then i % 256 else 99 } ∧
    (hdr_region iouW.buf_hdr iouW).length =
      usub32 iouW.buf_hdr.len hdrSize :=
  C10_region_from_header_only primsW tdW iouW
    { iouW with buflen := 4096,
                buf_body := fun i => if i < 8 then i % 256 else 99 }
    rfl rfl (by decide)


/-- The unsigned subtractions in seal and verify agree: truncating the
minuend to 32 bits (as storing io_u->buflen into the unsigned int hdr->len
does) leaves the difference unchanged. -/
theorem usub32_mod_left (a b : Nat) : usub32 (a % 2 ^ 32) b = usub32 a b := by
  unfold usub32
  omega

/-- Reading back the leading w bytes after a w-byte little-endian store
recovers the stored value modulo 256 ^ w. -/
theorem le_read_store (d : Nat → Nat) (v : Nat) (w : Nat) :
    le_read (store_le d v w) w = v % 256 ^ w := by
  induction w with
  | zero => simp [le_read, Nat.mod_one]
  | succ w ih =>
      have h1 : ((List.range w).map fun i =>
          store_le d v (w + 1) i * 256 ^ i).sum =
          le_read (store_le d v w) w := by
        rw [le_read]
        refine congrArg List.sum (List.map_congr_left ?_)
        intro i hi
        rw [List.mem_range] at hi
        simp [store_le, hi, Nat.lt_succ_of_lt hi]
      have h2 : store_le d v (w + 1) w = v / 256 ^ w % 256 := by
        simp [store_le]
      rw [le_read, List.range_succ, List.map_append, List.sum_append,
        List.map_cons, List.map_nil, List.sum_cons, List.sum_nil, h1, ih, h2]
      have hx := Nat.div_add_mod (v % (256 ^ w * 256)) (256 ^ w)
      rw [Nat.mod_mul_right_div_self, Nat.mod_mul_right_mod] at hx
      rw [pow_succ, ← hx]
      ring

/-- Reading the 16 digest bytes after an md5 store recovers the hash
bytes. -/
theorem map_store_md5 (d : Nat → Nat) (l : List Nat) :
    (List.range 16).map (store_md5 d l) = md5_bytes l := by
  rw [md5_bytes]
  refine List.map_congr_left ?_
  intro i hi
  rw [List.mem_range] at hi
  simp [store_md5, hi]

/-- verify_io_u accepts a buffer whose header carries the magic, the MD5
tag, and the MD5 digest of its own region. -/
theorem verify_dispatch_md5 (p : Prims) (td : ThreadData) (u : IoU)
    (h0 : td.verify ≠ VERIFY_NULL) (hd : u.ddir = DDir.READ)
    (hm : u.buf_hdr.fio_magic = FIO_HDR_MAGIC)
    (htype : u.buf_hdr.verify_type = VERIFY_MD5)
    (hdig : (List.range 16).map u.buf_hdr.digest =
      md5_bytes (p.md5 (hdr_region u.buf_hdr u))) :
    verify_io_u p td u = 0 := by
  unfold verify_io_u
  rw [if_neg (by simp [h0, hd]), if_neg (by simp [hm])]
  simp [htype, verify_io_u_md5, hdig]

/-- verify_io_u accepts a buffer whose header carries the magic, the CRC64
tag, and the CRC64 of its own region. -/
theorem verify_dispatch_crc64 (p : Prims) (td : ThreadData) (u : IoU)
    (h0 : td.verify ≠ VERIFY_NULL) (hd : u.ddir = DDir.READ)
    (hm : u.buf_hdr.fio_magic = FIO_HDR_MAGIC)
    (htype : u.buf_hdr.verify_type = VERIFY_CRC64)
    (hdig : le_read u.buf_hdr.digest 8 =
      p.crc64 (hdr_region u.buf_hdr u) % 256 ^ 8) :
    verify_io_u p td u = 0 := by
  unfold verify_io_u
  rw [if_neg (by simp [h0, hd]), if_neg (by simp [hm])]
  simp [htype, verify_io_u_crc64, hdig, VERIFY_CRC64, VERIFY_MD5]

/-- verify_io_u accepts a buffer whose header carries the magic, the CRC32
tag, and the CRC32 of its own region. -/
theorem verify_dispatch_crc32 (p : Prims) (td : ThreadData) (u : IoU)
    (h0 : td.verify ≠ VERIFY_NULL) (hd : u.ddir = DDir.READ)
    (hm : u.buf_hdr.fio_magic = FIO_HDR_MAGIC)
    (htype : u.buf_hdr.verify_type = VERIFY_CRC32)
    (hdig : le_read u.buf_hdr.digest 4 =
      p.crc32 (hdr_region u.buf_hdr u) % 256 ^ 4) :
    verify_io_u p td u = 0 := by
  unfold verify_io_u
  rw [if_neg (by simp [h0, hd]), if_neg (by simp [hm])]
  simp [htype, verify_io_u_crc32, hdig, VERIFY_CRC32, VERIFY_CRC64,
    VERIFY_MD5]

/-- verify_io_u accepts a buffer whose header carries the magic, the CRC16
tag, and the CRC16 of its own region. -/
theorem verify_dispatch_crc16 (p : Prims) (td : ThreadData) (u : IoU)
    (h0 : td.verify ≠ VERIFY_NULL) (hd : u.ddir = DDir.READ)
    (hm : u.buf_hdr.fio_magic = FIO_HDR_MAGIC)
    (htype : u.buf_hdr.verify_type = VERIFY_CRC16)
    (hdig : le_read u.buf_hdr.digest 2 =
      p.crc16 (hdr_region u.buf_hdr u) % 256 ^ 2) :
    verify_io_u p td u = 0 := by
  unfold verify_io_u
  rw [if_neg (by simp [h0, hd]), if_neg (by simp [hm])]
  simp [htype, verify_io_u_crc16, hdig, VERIFY_CRC16, VERIFY_CRC32,
    VERIFY_CRC64, VERIFY_MD5]

/-- verify_io_u accepts a buffer whose header carries the magic, the CRC7
tag, and the CRC7 of its own region. -/
theorem verify_dispatch_crc7 (p : Prims) (td : ThreadData) (u : IoU)
    (h0 : td.verify ≠ VERIFY_NULL) (hd : u.ddir = DDir.READ)
    (hm : u.buf_hdr.fio_magic = FIO_HDR_MAGIC)
    (htype : u.buf_hdr.verify_type = VERIFY_CRC7)
    (hdig : le_read u.buf_hdr.digest 1 =
      p.crc7 (hdr_region u.buf_hdr u) % 256 ^ 1) :
    verify_io_u p td u = 0 := by
  unfold verify_io_u
  rw [if_neg (by simp [h0, hd]), if_neg (by simp [hm])]
  simp [htype, verify_io_u_crc7, hdig, VERIFY_CRC7, VERIFY_CRC16,
    VERIFY_CRC32, VERIFY_CRC64, VERIFY_MD5]

/-- C1: sealing a buffer of at least header size with any supported
algorithm and then checking the untouched buffer as a read succeeds
with 0. -/
theorem C1_seal_then_verify_roundtrip (p : Prims) (td : ThreadData)
    (io_u : IoU)
    (ha : td.verify ∈ [VERIFY_MD5, VERIFY_CRC64, VERIFY_CRC32, VERIFY_CRC16,
      VERIFY_CRC7])
    (_hb : hdrSize ≤ io_u.buflen) (_hb2 : io_u.buflen < 2 ^ 32) :
    (populate_verify_io_u p td io_u).isSome ∧
    ∀ td2 u2, populate_verify_io_u p td io_u = some (td2, u2) →
      verify_io_u p td2 { u2 with ddir := DDir.READ } = 0 := by
  simp only [List.mem_cons, List.not_mem_nil, or_false] at ha
  rcases ha with h | h | h | h | h
  · constructor
    · simp [populate_verify_io_u, populate_core, h, VERIFY_NULL, VERIFY_MD5]
    · intro td2 u2 heq
      simp only [populate_verify_io_u, populate_core, h, VERIFY_NULL,
        VERIFY_MD5, VERIFY_CRC64, VERIFY_CRC32, VERIFY_CRC16, VERIFY_CRC7,
        reduceIte, Option.some.injEq, Prod.mk.injEq] at heq
      obtain ⟨h1, h2⟩ := heq
      refine verify_dispatch_md5 p _ _
        (by intro hc; simp [VERIFY_NULL] at hc) rfl rfl rfl ?_
      refine Eq.trans (map_store_md5 _ _) ?_
      refine congrArg (fun l => md5_bytes (p.md5 l)) ?_
      show (List.range (usub32 io_u.buflen hdrSize)).map _ =
        (List.range (usub32 (io_u.buflen % 2 ^ 32) hdrSize)).map _
      rw [usub32_mod_left]
  · constructor
    · simp [populate_verify_io_u, populate_core, h, VERIFY_NULL, VERIFY_MD5,
        VERIFY_CRC64]
    · intro td2 u2 heq
      simp only [populate_verify_io_u, populate_core, h, VERIFY_NULL,
        VERIFY_MD5, VERIFY_CRC64, VERIFY_CRC32, VERIFY_CRC16, VERIFY_CRC7,
        reduceIte, Option.some.injEq, Prod.mk.injEq] at heq
      obtain ⟨h1, h2⟩ := heq
      refine verify_dispatch_crc64 p _ _
        (by intro hc; simp [VERIFY_NULL] at hc) rfl rfl rfl ?_
      refine Eq.trans (le_read_store _ _ _) ?_
      refine congrArg (fun l => p.crc64 l % 256 ^ 8) ?_
      show (List.range (usub32 io_u.buflen hdrSize)).map _ =
        (List.range (usub32 (io_u.buflen % 2 ^ 32) hdrSize)).map _
      rw [usub32_mod_left]
  · constructor
    · simp [populate_verify_io_u, populate_core, h, VERIFY_NULL, VERIFY_MD5,
        VERIFY_CRC64, VERIFY_CRC32]
    · intro td2 u2 heq
      simp only [populate_verify_io_u, populate_core, h, VERIFY_NULL,
        VERIFY_MD5, VERIFY_CRC64, VERIFY_CRC32, VERIFY_CRC16, VERIFY_CRC7,
        reduceIte, Option.some.injEq, Prod.mk.injEq] at heq
      obtain ⟨h1, h2⟩ := heq
      refine verify_dispatch_crc32 p _ _
        (by intro hc; simp [VERIFY_NULL] at hc) rfl rfl rfl ?_
      refine Eq.trans (le_read_store _ _ _) ?_
      refine congrArg (fun l => p.crc32 l % 256 ^ 4) ?_
      show (List.range (usub32 io_u.buflen hdrSize)).map _ =
        (List.range (usub32 (io_u.buflen % 2 ^ 32) hdrSize)).map _
      rw [usub32_mod_left]
  · constructor
    · simp [populate_verify_io_u, populate_core, h, VERIFY_NULL, VERIFY_MD5,
        VERIFY_CRC64, VERIFY_CRC32, VERIFY_CRC16]
    · intro td2 u2 heq
      simp only [populate_verify_io_u, populate_core, h, VERIFY_NULL,
        VERIFY_MD5, VERIFY_CRC64, VERIFY_CRC32, VERIFY_CRC16, VERIFY_CRC7,
        reduceIte, Option.some.injEq, Prod.mk.injEq] at heq
      obtain ⟨h1, h2⟩ := heq
      refine verify_dispatch_crc16 p _ _
        (by intro hc; simp [VERIFY_NULL] at hc) rfl rfl rfl ?_
      refine Eq.trans (le_read_store _ _ _) ?_
      refine congrArg (fun l => p.crc16 l % 256 ^ 2) ?_
      show (List.range (usub32 io_u.buflen hdrSize)).map _ =
        (List.range (usub32 (io_u.buflen % 2 ^ 32) hdrSize)).map _
      rw [usub32_mod_left]
  · constructor
    · simp [populate_verify_io_u, populate_core, h, VERIFY_NULL, VERIFY_MD5,
        VERIFY_CRC64, VERIFY_CRC32, VERIFY_CRC16, VERIFY_CRC7]
    · intro td2 u2 heq
      simp only [populate_verify_io_u, populate_core, h, VERIFY_NULL,
        VERIFY_MD5, VERIFY_CRC64, VERIFY_CRC32, VERIFY_CRC16, VERIFY_CRC7,
        reduceIte, Option.some.injEq, Prod.mk.injEq] at heq
      obtain ⟨h1, h2⟩ := heq
      refine verify_dispatch_crc7 p _ _
        (by intro hc; simp [VERIFY_NULL] at hc) rfl rfl rfl ?_
      refine Eq.trans (le_read_store _ _ _) ?_
      refine congrArg (fun l => p.crc7 l % 256 ^ 1) ?_
      show (List.range (usub32 io_u.buflen hdrSize)).map _ =
        (List.range (usub32 (io_u.buflen % 2 ^ 32) hdrSize)).map _
      rw [usub32_mod_left]

/-- Witness for C1: seal the concrete CRC32 configuration and check it. -/
theorem C1_seal_then_verify_witness :
    (populate_verify_io_u primsW tdW iouW).map
      (fun r => verify_io_u primsW r.1 { r.2 with ddir := DDir.READ }) =
      some 0 := by
  obtain ⟨hs, hv⟩ :=
    C1_seal_then_verify_roundtrip primsW tdW iouW (by decide) (by decide)
      (by decide)
  match heq : populate_verify_io_u primsW tdW iouW with
  | none => rw [heq] at hs; simp at hs
  | some (td2, u2) =>
      exact congrArg some (hv td2 u2 heq)

/-- C9 (amended): sealing is deterministic in the RNG state and the prior
buffer contents.  Two populate_verify_io_u calls with equal initial
verify_state, the same configured algorithm, equal buffer lengths and equal
initial buffer contents assert together, and otherwise produce identical
resulting buffer contents (header and body) and equal final RNG states. -/
theorem C9_seal_deterministic (p : Prims) (tdA tdB : ThreadData)
    (uA uB : IoU) (hs : tdA.verify_state = tdB.verify_state)
    (ha : tdA.verify = tdB.verify) (hl : uA.buflen = uB.buflen)
    (hh : uA.buf_hdr = uB.buf_hdr)
    (hbody : ∀ i, uA.buf_body i = uB.buf_body i) :
    (populate_verify_io_u p tdA uA).isSome =
      (populate_verify_io_u p tdB uB).isSome ∧
    ∀ rA rB, populate_verify_io_u p tdA uA = some rA →
      populate_verify_io_u p tdB uB = some rB →
        rA.1.verify_state = rB.1.verify_state ∧
        rA.2.buf_hdr = rB.2.buf_hdr ∧
        ∀ i, rA.2.buf_body i = rB.2.buf_body i := by
  have hbf : uA.buf_body = uB.buf_body := funext hbody
  have hcore : populate_core p tdA.verify tdA.verify_state uA.buflen
      uA.buf_hdr uA.buf_body = populate_core p tdB.verify tdB.verify_state
      uB.buflen uB.buf_hdr uB.buf_body := by
    rw [hs, ha, hl, hh, hbf]
  constructor
  · unfold populate_verify_io_u
    rw [hcore]
    rcases hc : populate_core p tdB.verify tdB.verify_state uB.buflen
        uB.buf_hdr uB.buf_body with _ | ⟨st2, hdr2, body2⟩ <;> rfl
  · intro rA rB hA hB
    unfold populate_verify_io_u at hA hB
    rw [hcore] at hA
    rcases hc : populate_core p tdB.verify tdB.verify_state uB.buflen
        uB.buf_hdr uB.buf_body with _ | ⟨st2, hdr2, body2⟩
    · rw [hc] at hA
      simp at hA
    · rw [hc] at hA hB
      simp only [Option.some.injEq] at hA hB
      rw [← hA, ← hB]
      exact ⟨rfl, rfl, fun i => rfl⟩

/-- Witness for C9 (amended) at a concrete CRC32 configuration. -/
theorem C9_seal_deterministic_witness :
    (populate_verify_io_u primsW tdW iouW).isSome =
      (populate_verify_io_u primsW tdW iouW).isSome ∧
    ∀ rA rB, populate_verify_io_u primsW tdW iouW = some rA →
      populate_verify_io_u primsW tdW iouW = some rB →
        rA.1.verify_state = rB.1.verify_state ∧
        rA.2.buf_hdr = rB.2.buf_hdr ∧
        ∀ i, rA.2.buf_body i = rB.2.buf_body i :=
  C9_seal_deterministic primsW tdW tdW iouW iouW rfl rfl rfl rfl
    (fun _ => rfl)

/-- Counterexample for C9 as stated: with CRC7 configured, sealing writes
only the leading byte of the 16-byte digest union, so its byte at offset 1
(the high byte of the crc16 slot) is never written; two calls with equal
verify_state, the same algorithm and equal buffer lengths, but different
prior bytes at that offset, give different resulting buffer contents. -/
theorem C9_stale_union_counterexample :
    (populate_verify_io_u primsW { tdW with verify := VERIFY_CRC7 }
        iouW).map (fun r => r.2.buf_hdr.digest 1) = some 0 ∧
    (populate_verify_io_u primsW { tdW with verify := VERIFY_CRC7 }
        { iouW with buf_hdr :=
          { hdrW with digest := fun i => if i = 1 then 7 else 0 } }).map
        (fun r => r.2.buf_hdr.digest 1) = some 7 ∧
    ({ iouW with buf_hdr :=
        { hdrW with digest := fun i => if i = 1 then 7 else 0 } } :
      IoU).buflen = iouW.buflen := by
  refine ⟨?_, ?_, rfl⟩ <;> rfl

/-- All history entries still pending, tree part first. -/
def pendingOf (td : ThreadData) : List Ipo :=
  td.io_hist_tree ++ td.io_hist_list

/-- Representation invariant of the rb-tree listing: offsets ascend. -/
def sortedByOffset (l : List Ipo) : Prop :=
  l.Pairwise fun a b => a.offset ≤ b.offset

instance (l : List Ipo) : Decidable (sortedByOffset l) := by
  unfold sortedByOffset
  infer_instance

/-- gnv_deliver hands back exactly the thread state it was given. -/
theorem gnv_deliver_state (openOk : Nat → Bool) (td : ThreadData) (u : IoU)
    (ipo : Ipo) : (gnv_deliver openOk td u ipo).2.1 = td := by
  simp only [gnv_deliver]
  split <;> rfl

/-- gnv_deliver binds the offset and length of the entry onto the io_u on
both of its paths. -/
theorem gnv_deliver_fields (openOk : Nat → Bool) (td : ThreadData) (u : IoU)
    (ipo : Ipo) : (gnv_deliver openOk td u ipo).2.2.offset = ipo.offset ∧
      (gnv_deliver openOk td u ipo).2.2.buflen = ipo.len := by
  simp only [gnv_deliver]
  split <;> exact ⟨rfl, rfl⟩

/-- gnv_deliver returns 0 whenever the file of the entry is already open or
its open succeeds. -/
theorem gnv_deliver_ret (openOk : Nat → Bool) (td : ThreadData) (u : IoU)
    (ipo : Ipo)
    (h : ipo.file.flagOpen = true ∨ openOk ipo.file.fid = true) :
    (gnv_deliver openOk td u ipo).1 = 0 := by
  have hc : ¬(ipo.file.flagOpen = false ∧ openOk ipo.file.fid = false) := by
    rcases h with h | h <;> simp [h]
  simp only [gnv_deliver]
  rw [if_neg hc]

/-- C4: with no pinned file, get_next_verify consumes the head (minimum
offset) of the sorted tree when the tree is non-empty, else the oldest list
entry, else reports 1 leaving everything unchanged; a successful call
removes exactly one pending entry. -/
theorem C4_tree_min_then_list_head (openOk : Nat → Bool) (td : ThreadData)
    (u : IoU) (hf : u.file = none) (hs : sortedByOffset td.io_hist_tree) :
    (∀ e rest, td.io_hist_tree = e :: rest →
      (get_next_verify openOk td u).2.1.io_hist_tree = rest ∧
      (get_next_verify openOk td u).2.1.io_hist_list = td.io_hist_list ∧
      (get_next_verify openOk td u).2.2.offset = e.offset ∧
      (get_next_verify openOk td u).2.2.buflen = e.len ∧
      (∀ x ∈ td.io_hist_tree, e.offset ≤ x.offset) ∧
      (e.file.flagOpen = true ∨ openOk e.file.fid = true →
        (get_next_verify openOk td u).1 = 0)) ∧
    (td.io_hist_tree = [] → ∀ e rest, td.io_hist_list = e :: rest →
      (get_next_verify openOk td u).2.1.io_hist_list = rest ∧
      (get_next_verify openOk td u).2.1.io_hist_tree = [] ∧
      (get_next_verify openOk td u).2.2.offset = e.offset ∧
      (get_next_verify openOk td u).2.2.buflen = e.len ∧
      (e.file.flagOpen = true ∨ openOk e.file.fid = true →
        (get_next_verify openOk td u).1 = 0)) ∧
    (td.io_hist_tree = [] → td.io_hist_list = [] →
      get_next_verify openOk td u = (1, td, u)) ∧
    ((get_next_verify openOk td u).1 = 0 →
      (pendingOf (get_next_verify openOk td u).2.1).length + 1 =
        (pendingOf td).length) := by
  refine ⟨?_, ?_, ?_, ?_⟩
  · intro e rest htree
    have hg : get_next_verify openOk td u =
        gnv_deliver openOk { td with io_hist_tree := rest } u e := by
      unfold get_next_verify
      rw [hf, htree]
    rw [hg, gnv_deliver_state]
    refine ⟨rfl, rfl, (gnv_deliver_fields openOk _ u e).1,
      (gnv_deliver_fields openOk _ u e).2, ?_, fun h => gnv_deliver_ret _ _ _ _ h⟩
    rw [htree] at hs ⊢
    rw [sortedByOffset, List.pairwise_cons] at hs
    intro x hx
    rcases List.mem_cons.mp hx with h | h
    · rw [h]
    · exact hs.1 x h
  · intro htree e rest hlist
    have hg : get_next_verify openOk td u =
        gnv_deliver openOk { td with io_hist_list := rest } u e := by
      unfold get_next_verify
      rw [hf, htree, hlist]
    rw [hg, gnv_deliver_state]
    exact ⟨rfl, htree, (gnv_deliver_fields openOk _ u e).1,
      (gnv_deliver_fields openOk _ u e).2,
      fun h => gnv_deliver_ret _ _ _ _ h⟩
  · intro htree hlist
    unfold get_next_verify
    rw [hf, htree, hlist]
  · intro hret
    rcases htree : td.io_hist_tree with _ | ⟨e, rest⟩
    · rcases hlist : td.io_hist_list with _ | ⟨e, rest⟩
      · have : get_next_verify openOk td u = (1, td, u) := by
          unfold get_next_verify
          rw [hf, htree, hlist]
        rw [this] at hret
        simp at hret
      · have hg : get_next_verify openOk td u =
            gnv_deliver openOk { td with io_hist_list := rest } u e := by
          unfold get_next_verify
          rw [hf, htree, hlist]
        rw [hg, gnv_deliver_state]
        simp [pendingOf, htree, hlist]
    · have hg : get_next_verify openOk td u =
          gnv_deliver openOk { td with io_hist_tree := rest } u e := by
        unfold get_next_verify
        rw [hf, htree]
      rw [hg, gnv_deliver_state]
      simp only [pendingOf, htree]
      simp [List.length_append]

/-- A first history entry with an open file. -/
def ipoA : Ipo := { offset := 4096, len := 512, file := fileW }

/-- A second history entry with an open file and a larger offset. -/
def ipoB : Ipo := { offset := 8192, len := 512, file := fileW }

/-- Witness for C4 on a two-entry sorted tree: the minimum-offset entry is
consumed and bound. -/
theorem C4_tree_min_witness :
    (get_next_verify (fun _ => true) { tdW with io_hist_tree := [ipoA, ipoB] }
      iouW).2.1.io_hist_tree = [ipoB] ∧
    (get_next_verify (fun _ => true) { tdW with io_hist_tree := [ipoA, ipoB] }
      iouW).2.2.offset = ipoA.offset ∧
    (get_next_verify (fun _ => true) { tdW with io_hist_tree := [ipoA, ipoB] }
      iouW).1 = 0 := by
  obtain ⟨h1, -, -, -⟩ := C4_tree_min_then_list_head (fun _ => true)
    { tdW with io_hist_tree := [ipoA, ipoB] } iouW rfl (by decide)
  obtain ⟨ht, -, ho, -, -, hr⟩ := h1 ipoA [ipoB] rfl
  exact ⟨ht, ho, hr (Or.inl rfl)⟩

/-- A fresh io_u as the read-verify scheduler presents it: nothing
pinned. -/
def freshU : IoU :=
  { buf_hdr := hdrW, buf_body := fun _ => 0, buflen := 0, offset := 0,
    ddir := DDir.WRITE, file := none, xfer_buflen := 0, xfer_buf_set := false }

/-- Modelled from the spec: the record side of the tracker (log_io_piece)
is not under src/; per spec section 4.3 the ordered structure is keyed by
offset, and the rb-tree insertion sends an equal key to the right, so a new
entry lands after the existing entries with offsets not above its own. -/
def treeInsert (e : Ipo) : List Ipo → List Ipo
  | [] => [e]
  | x :: xs => if e.offset < x.offset then e :: x :: xs
               else x :: treeInsert e xs

/-- Modelled from the spec: record(entry) inserts into the ordered tree or
appends to the tail of the sequential list, the choice depending on the
configured I/O pattern (spec section 4.3). -/
def record (e : Ipo) (toTree : Bool) (td : ThreadData) : ThreadData :=
  if toTree then { td with io_hist_tree := treeInsert e td.io_hist_tree }
  else { td with io_hist_list := td.io_hist_list ++ [e] }

/-- One tracker operation: a record at write completion, or a
get_next_verify issued by the scheduler. -/
inductive HOp where
  | record (e : Ipo) (toTree : Bool)
  | next
deriving DecidableEq

/-- Run a sequence of tracker operations from a state; each next call gets
a fresh io_u.  Returns the final state, the entries get_next_verify
delivered (removed from the history and returned with 0), and the entries
it dropped (removed from the history but answered with 1 because the open
of the file failed). -/
def runHist (openOk : Nat → Bool) : List HOp → ThreadData →
    ThreadData × List Ipo × List Ipo
  | [], td => (td, [], [])
  | HOp.record e t :: ops, td => runHist openOk ops (record e t td)
  | HOp.next :: ops, td =>
      let res := get_next_verify openOk td freshU
      let got : List Ipo :=
        match td.io_hist_tree, td.io_hist_list with
        | e :: _, _ => if res.1 = 0 then [e] else []
        | [], e :: _ => if res.1 = 0 then [e] else []
        | [], [] => []
      let dropped : List Ipo :=
        match td.io_hist_tree, td.io_hist_list with
        | e :: _, _ => if res.1 = 0 then [] else [e]
        | [], e :: _ => if res.1 = 0 then [] else [e]
        | [], [] => []
      let rest := runHist openOk ops res.2.1
      (rest.1, got ++ rest.2.1, dropped ++ rest.2.2)

/-- The entries a sequence of operations records. -/
def recordedOf : List HOp → List Ipo
  | [] => []
  | HOp.record e _ :: ops => e :: recordedOf ops
  | HOp.next :: ops => recordedOf ops

/-- Inserting into the offset-ordered tree adds exactly that entry. -/
theorem treeInsert_perm (e : Ipo) (l : List Ipo) :
    (↑(treeInsert e l) : Multiset Ipo) = e ::ₘ ↑l := by
  induction l with
  | nil => rfl
  | cons x xs ih =>
      unfold treeInsert
      split
      · rfl
      · show (↑(x :: treeInsert e xs) : Multiset Ipo) = _
        rw [← Multiset.cons_coe, ih, Multiset.cons_swap, Multiset.cons_coe]

/-- A record adds exactly its entry to the pending multiset. -/
theorem pendingOf_record (e : Ipo) (t : Bool) (td : ThreadData) :
    (↑(pendingOf (record e t td)) : Multiset Ipo) =
      e ::ₘ ↑(pendingOf td) := by
  cases t
  · show (↑(td.io_hist_tree ++ (td.io_hist_list ++ [e])) : Multiset Ipo) = _
    simp only [← Multiset.coe_add, pendingOf, Multiset.coe_singleton]
    rw [← Multiset.singleton_add]
    abel
  · show (↑(treeInsert e td.io_hist_tree ++ td.io_hist_list) : Multiset Ipo)
      = _
    simp only [← Multiset.coe_add, pendingOf, treeInsert_perm,
      Multiset.cons_add]

/-- A failing open makes gnv_deliver return 1. -/
theorem gnv_deliver_ret1 (openOk : Nat → Bool) (td : ThreadData) (u : IoU)
    (ipo : Ipo)
    (h : ipo.file.flagOpen = false ∧ openOk ipo.file.fid = false) :
    (gnv_deliver openOk td u ipo).1 = 1 := by
  simp only [gnv_deliver]
  rw [if_pos h]

/-- Moving one entry between the dropped summand and the outside. -/
theorem cons_reshuffle (e : Ipo) (D Dr P : Multiset Ipo) :
    e ::ₘ (D + Dr + P) = D + e ::ₘ Dr + P := by
  rw [Multiset.add_cons, Multiset.cons_add]

/-- Moving one entry between the delivered summand and the outside. -/
theorem cons_reshuffle_left (e : Ipo) (D Dr P : Multiset Ipo) :
    e ::ₘ (D + Dr + P) = e ::ₘ D + Dr + P := by
  rw [Multiset.cons_add, Multiset.cons_add]

/-- C2 (amended): over every operation sequence, with no assumption on the
files, the recorded entries plus the initially pending ones are exactly the
delivered entries plus the dropped entries plus the finally pending ones,
as multisets; an entry is dropped only when its file is closed and its open
fails, and delivered only when its file is open or its open succeeds.  So
each entry is consumed by at most one get_next_verify call, none is
delivered twice, and when every open succeeds nothing is ever dropped. -/
theorem C2_consumed_exactly_once (openOk : Nat → Bool) (ops : List HOp) :
    ∀ td : ThreadData,
      ((↑(recordedOf ops) + ↑(pendingOf td) : Multiset Ipo) =
        ↑((runHist openOk ops td).2.1) + ↑((runHist openOk ops td).2.2) +
          ↑(pendingOf (runHist openOk ops td).1)) ∧
      (∀ e ∈ (runHist openOk ops td).2.2,
        e.file.flagOpen = false ∧ openOk e.file.fid = false) ∧
      (∀ e ∈ (runHist openOk ops td).2.1,
        e.file.flagOpen = true ∨ openOk e.file.fid = true) := by
  induction ops with
  | nil =>
      intro td
      refine ⟨by simp [runHist, recordedOf], ?_, ?_⟩ <;>
        · intro e he
          simp [runHist] at he
  | cons op ops ih =>
      intro td
      cases op with
      | record e t =>
          obtain ⟨ih1, ih2, ih3⟩ := ih (record e t td)
          refine ⟨?_, ?_, ?_⟩
          · simp only [runHist, recordedOf]
            rw [pendingOf_record, Multiset.add_cons] at ih1
            rw [← Multiset.cons_coe, Multiset.cons_add]
            exact ih1
          · simp only [runHist]
            exact ih2
          · simp only [runHist]
            exact ih3
      | next =>
          simp only [runHist, recordedOf]
          rcases htree : td.io_hist_tree with _ | ⟨e, rest⟩
          · rcases hlist : td.io_hist_list with _ | ⟨e, rest⟩
            · have hg : get_next_verify openOk td freshU =
                  (1, td, freshU) := by
                unfold get_next_verify
                rw [show freshU.file = none from rfl, htree, hlist]
              rw [hg]
              exact ih td
            · have hg : get_next_verify openOk td freshU =
                  gnv_deliver openOk { td with io_hist_list := rest }
                    freshU e := by
                unfold get_next_verify
                rw [show freshU.file = none from rfl, htree, hlist]
              have hptd : (↑(pendingOf td) : Multiset Ipo) =
                  e ::ₘ ↑(pendingOf { td with io_hist_list := rest }) := by
                simp only [pendingOf]
                rw [htree, hlist]
                rfl
              obtain ⟨ih1, ih2, ih3⟩ := ih (gnv_deliver openOk
                { td with io_hist_list := rest } freshU e).2.1
              rw [gnv_deliver_state] at ih1 ih2 ih3
              by_cases hfail : e.file.flagOpen = false ∧
                  openOk e.file.fid = false
              · have hret : (gnv_deliver openOk
                    { td with io_hist_list := rest } freshU e).1 = 1 :=
                  gnv_deliver_ret1 _ _ _ _ hfail
                rw [hg]
                simp only [hret, reduceIte]
                refine ⟨?_, ?_, ?_⟩
                · rw [gnv_deliver_state, hptd, Multiset.add_cons, ih1]
                  exact cons_reshuffle e _ _ _
                · rw [gnv_deliver_state]
                  intro x hx
                  have hx2 : x ∈ [e] ++ (runHist openOk ops
                      { td with io_hist_list := rest }).2.2 := hx
                  rcases List.mem_append.mp hx2 with h | h
                  · rw [List.mem_singleton] at h
                    subst h
                    exact hfail
                  · exact ih2 x h
                · rw [gnv_deliver_state]
                  intro x hx
                  exact ih3 x hx
              · have hok : e.file.flagOpen = true ∨
                    openOk e.file.fid = true := by
                  cases hb1 : e.file.flagOpen
                  · cases hb2 : openOk e.file.fid
                    · exact absurd ⟨hb1, hb2⟩ hfail
                    · exact Or.inr rfl
                  · exact Or.inl rfl
                have hret : (gnv_deliver openOk
                    { td with io_hist_list := rest } freshU e).1 = 0 :=
                  gnv_deliver_ret _ _ _ _ hok
                rw [hg]
                simp only [hret, reduceIte]
                refine ⟨?_, ?_, ?_⟩
                · rw [gnv_deliver_state, hptd, Multiset.add_cons, ih1]
                  exact cons_reshuffle_left e _ _ _
                · rw [gnv_deliver_state]
                  intro x hx
                  exact ih2 x hx
                · rw [gnv_deliver_state]
                  intro x hx
                  have hx2 : x ∈ [e] ++ (runHist openOk ops
                      { td with io_hist_list := rest }).2.1 := hx
                  rcases List.mem_append.mp hx2 with h | h
                  · rw [List.mem_singleton] at h
                    subst h
                    exact hok
                  · exact ih3 x h
          · have hg : get_next_verify openOk td freshU =
                gnv_deliver openOk { td with io_hist_tree := rest }
                  freshU e := by
              unfold get_next_verify
              rw [show freshU.file = none from rfl, htree]
            have hptd : (↑(pendingOf td) : Multiset Ipo) =
                e ::ₘ ↑(pendingOf { td with io_hist_tree := rest }) := by
              simp only [pendingOf]
              rw [htree]
              rfl
            obtain ⟨ih1, ih2, ih3⟩ := ih (gnv_deliver openOk
              { td with io_hist_tree := rest } freshU e).2.1
            rw [gnv_deliver_state] at ih1 ih2 ih3
            by_cases hfail : e.file.flagOpen = false ∧
                openOk e.file.fid = false
            · have hret : (gnv_deliver openOk
                  { td with io_hist_tree := rest } freshU e).1 = 1 :=
                gnv_deliver_ret1 _ _ _ _ hfail
              rw [hg]
              simp only [hret, reduceIte]
              refine ⟨?_, ?_, ?_⟩
              · rw [gnv_deliver_state, hptd, Multiset.add_cons, ih1]
                exact cons_reshuffle e _ _ _
              · rw [gnv_deliver_state]
                intro x hx
                have hx2 : x ∈ [e] ++ (runHist openOk ops
                    { td with io_hist_tree := rest }).2.2 := hx
                rcases List.mem_append.mp hx2 with h | h
                · rw [List.mem_singleton] at h
                  subst h
                  exact hfail
                · exact ih2 x h
              · rw [gnv_deliver_state]
                intro x hx
                exact ih3 x hx
            · have hok : e.file.flagOpen = true ∨
                  openOk e.file.fid = true := by
                cases hb1 : e.file.flagOpen
                · cases hb2 : openOk e.file.fid
                  · exact absurd ⟨hb1, hb2⟩ hfail
                  · exact Or.inr rfl
                · exact Or.inl rfl
              have hret : (gnv_deliver openOk
                  { td with io_hist_tree := rest } freshU e).1 = 0 :=
                gnv_deliver_ret _ _ _ _ hok
              rw [hg]
              simp only [hret, reduceIte]
              refine ⟨?_, ?_, ?_⟩
              · rw [gnv_deliver_state, hptd, Multiset.add_cons, ih1]
                exact cons_reshuffle_left e _ _ _
              · rw [gnv_deliver_state]
                intro x hx
                exact ih2 x hx
              · rw [gnv_deliver_state]
                intro x hx
                have hx2 : x ∈ [e] ++ (runHist openOk ops
                    { td with io_hist_tree := rest }).2.1 := hx
                rcases List.mem_append.mp hx2 with h | h
                · rw [List.mem_singleton] at h
                  subst h
                  exact hok
                · exact ih3 x h

/-- A history entry whose file is closed and will not open. -/
def ipoC : Ipo :=
  { offset := 0, len := 4096, file := { fid := 9, flagOpen := false } }

/-- Witness for C2 (amended): the conservation equation at a concrete run
that records an undeliverable entry and an already-open one. -/
theorem C2_consumed_witness :
    (↑(recordedOf [HOp.record ipoC true, HOp.record ipoA false, HOp.next,
        HOp.next, HOp.next]) + ↑(pendingOf tdW) : Multiset Ipo) =
      ↑((runHist (fun _ => false) [HOp.record ipoC true,
          HOp.record ipoA false, HOp.next, HOp.next, HOp.next] tdW).2.1) +
        ↑((runHist (fun _ => false) [HOp.record ipoC true,
          HOp.record ipoA false, HOp.next, HOp.next, HOp.next] tdW).2.2) +
        ↑(pendingOf (runHist (fun _ => false) [HOp.record ipoC true,
          HOp.record ipoA false, HOp.next, HOp.next, HOp.next] tdW).1) :=
  (C2_consumed_exactly_once (fun _ => false) [HOp.record ipoC true,
    HOp.record ipoA false, HOp.next, HOp.next, HOp.next] tdW).1

/-- Counterexample for C2 as stated: when the open of the file of an entry
fails, get_next_verify unlinks the entry and returns 1; after one record
and one next the delivered list is empty, the entry sits in the dropped
list, and nothing pends, so the recorded entry is delivered by no future
call rather than exactly one. -/
theorem C2_open_failure_drops_entry :
    recordedOf [HOp.record ipoC true, HOp.next] = [ipoC] ∧
    (runHist (fun _ => false) [HOp.record ipoC true, HOp.next] tdW).2.1 =
      [] ∧
    (runHist (fun _ => false) [HOp.record ipoC true, HOp.next] tdW).2.2 =
      [ipoC] ∧
    pendingOf (runHist (fun _ => false) [HOp.record ipoC true, HOp.next]
      tdW).1 = [] := by
  exact ⟨rfl, rfl, rfl, rfl⟩
